import Mathlib

/-!
Verification of the TestQueue engine (src/index.js of node-testqueue).

The source is a small sequential test runner built on promise chaining.
We embed it shallowly: a run is interpreted as a deterministic sequence of
actions (setup invocation, event emissions, teardown invocation, promise
settlement).  Asynchrony collapses: the code dispatches exactly one entry
at a time and only continues from the settlement handlers of the entry in
flight, so a run is a single deterministic chain.

Fidelity notes, keyed to the source:

* A leaf test is `new Promise(test.fn.bind(this))` followed by
  `.then(_onPass, _onError)` (index.js lines 100-105).  The only thing the
  engine observes is that promise: fulfilled with a value (the test called
  `pass(value)`), rejected with an error (the test called `fail(e)` or
  threw synchronously inside the executor - the Promise constructor turns
  a synchronous throw into a rejection), or forever pending (the test
  returned without calling either callback; note that `new Promise`
  discards the executor's return value, so returning a rejected
  promise-like also leaves the wrapping promise pending and hangs the
  run).  A leaf is therefore modelled as a `LeafResult` plus the list of
  `info` payloads the test emitted on the queue before that.
* `setupFn()` / `teardownFn()` are wrapped in `Promise.resolve(...)` and
  only their fulfillment continues the chain (lines 65-69, 160-168); a
  rejection of either leaves the chain, hence the run promise, unsettled
  forever.  We model each by a Bool: does it resolve?  A hung run is a
  `none` settlement.
* A nested `TestQueue` entry gets relay listeners (lines 86-92): `pass`,
  `fail`, `info` re-emitted verbatim; `start` re-emitted with the entry
  name prepended to the arguments; `finish` re-emitted with the first
  argument kept and the entry name as second argument.  Then its `run`
  promise continues the parent via `_onPassQueue` / `_onErrorQueue`
  (lines 94-98, 111-136).
* The cursor `this._testQueueCursor` is incremented at dispatch time
  (line 108); `dispatched` in `RunOutput` is the number of entries that
  were ever dispatched, i.e. the final cursor value.
* `_onErrorQueue` does a `console.log` (line 125); console output is
  outside the model.
-/

/-- Aggregated results of a run: the object `{passed, failed}` built in
`_onFinish` (index.js lines 153-156) and handed to listeners and to the
run promise. -/
structure Results where
  passed : Nat
  failed : Nat
deriving DecidableEq, Repr

/-- Behaviour of the promise wrapping one leaf test.  The test function is
run as a Promise executor (`new Promise(test.fn.bind(this))`, index.js
line 101), so: `passR v` - the test called `pass(v)`, the promise
fulfills; `failR e` - the promise rejects with `e`, either because the
test called `fail(e)` or because it threw `e` synchronously (the executor
protocol turns a synchronous throw into a rejection); `hangR` - the
promise never settles because the test returned without ever calling a
callback.  In particular a test that returns a rejected promise-like
without calling the callbacks is a `hangR`: `new Promise(executor)`
discards the executor's return value, so the rejection is lost and the
wrapping promise stays pending forever. -/
inductive LeafResult (V E : Type) where
  | passR (v : V)
  | failR (e : E)
  | hangR
deriving DecidableEq, Repr

/-- One runnable of an entry: a leaf test function, modelled by the `info`
payloads it emits and its settlement, or a nested queue with its
`stopOnFail` policy, whether its setup and teardown resolve, and its own
entry list (`test.fn instanceof TestQueue` dispatch, index.js line 84). -/
inductive Runnable (V E I : Type) where
  | leaf (infos : List I) (result : LeafResult V E)
  | queue (stopOnFail setupResolves teardownResolves : Bool)
      (tests : List (String × Runnable V E I))

/-- An entry as stored by `addTest`: `{name: name, fn: fn}`. -/
abbrev QEntry (V E I : Type) := String × Runnable V E I

/-- An event emitted on a queue.  `start` carries the list of name
arguments (empty for a queue starting its own run; relaying prepends the
entry name, index.js line 89).  `finish` carries the results and an
optional sub-queue name (line 91). -/
inductive Event (V E I : Type) where
  | startE (names : List String)
  | passE (name : String) (value : V)
  | failE (name : String) (error : E)
  | infoE (payload : I)
  | finishE (results : Results) (name : Option String)
deriving DecidableEq, Repr

/-- One observable action of a run, in order: the synchronous invocation
of `setupFn`, an event emission, the invocation of `teardownFn`, or the
settlement of the run promise (`rejected = true` when `_testQueueFail`
is called, line 163). -/
inductive Act (V E I : Type) where
  | runSetup
  | emitE (e : Event V E I)
  | runTeardown
  | settleA (rejected : Bool) (results : Results)
deriving DecidableEq, Repr

/-- The complete observable outcome of one `run()` call: the ordered trace
of actions, the final cursor value (number of entries dispatched), and the
settlement of the returned promise (`none` when it never settles). -/
structure RunOutput (V E I : Type) where
  trace : List (Act V E I)
  dispatched : Nat
  settlement : Option (Results × Bool)
deriving DecidableEq, Repr

/-- Relay installed on a nested queue entry named `n` (index.js lines
86-92): `pass`, `fail`, `info` verbatim; `start` with `n` prepended to the
arguments; `finish` keeping the results and attaching `n`.  Non-event
actions of the sub-run are not observable on the parent. -/
def bubble (n : String) : Act V E I → Option (Act V E I)
  | .emitE (.startE names) => some (.emitE (.startE (n :: names)))
  | .emitE (.passE m v) => some (.emitE (.passE m v))
  | .emitE (.failE m e) => some (.emitE (.failE m e))
  | .emitE (.infoE i) => some (.emitE (.infoE i))
  | .emitE (.finishE r _) => some (.emitE (.finishE r (some n)))
  | _ => none

/-- Acts of `_onFinish` (index.js lines 151-170): emit `finish` with
the aggregated results, invoke `teardownFn`, and, when teardown resolves,
settle the run promise (reject iff `failed > 0`). -/
def finishActs (td : Bool) (p f : Nat) : List (Act V E I) :=
  [.emitE (.finishE ⟨p, f⟩ none), .runTeardown]
    ++ if td then [.settleA (f != 0) ⟨p, f⟩] else []

/-- Settlement produced by `_onFinish`: when teardown resolves the run
promise settles with the results, rejected iff `failed > 0`; when teardown
rejects the promise never settles. -/
def finishSettle (td : Bool) (p f : Nat) : Option (Results × Bool) :=
  if td then some (⟨p, f⟩, f != 0) else none

/-- The dispatch loop `_testQueueNext` together with the settlement
handlers `_onPass`, `_onError`, `_onPassQueue`, `_onErrorQueue` and
`_onFinish` (index.js lines 75-170), interpreted over the remaining
entries.  `sof` is `this.stopOnFail`, `td` whether `teardownFn` resolves,
`p`, `f`, `d` the current `passed`, `failed` and cursor values. -/
def runLoop (sof td : Bool) :
    List (QEntry V E I) → Nat → Nat → Nat → RunOutput V E I
  | [], p, f, d =>
    ⟨finishActs td p f, d, finishSettle td p f⟩
  | (name, .leaf infos res) :: rest, p, f, d =>
    let pre : List (Act V E I) := infos.map (fun i => .emitE (.infoE i))
    match res with
    | .passR v =>
      let out := runLoop sof td rest (p + 1) f (d + 1)
      ⟨pre ++ .emitE (.passE name v) :: out.trace, out.dispatched,
        out.settlement⟩
    | .failR e =>
      if sof then
        ⟨pre ++ .emitE (.failE name e) :: finishActs td p (f + 1), d + 1,
          finishSettle td p (f + 1)⟩
      else
        let out := runLoop sof td rest p (f + 1) (d + 1)
        ⟨pre ++ .emitE (.failE name e) :: out.trace, out.dispatched,
          out.settlement⟩
    | .hangR => ⟨pre, d + 1, none⟩
  | (name, .queue qsof qsu qtd qtests) :: rest, p, f, d =>
    let sub : RunOutput V E I :=
      if qsu then
        let l := runLoop qsof qtd qtests 0 0 0
        ⟨.runSetup :: .emitE (.startE []) :: l.trace, l.dispatched,
          l.settlement⟩
      else ⟨[.runSetup], 0, none⟩
    let bubbled := sub.trace.filterMap (bubble name)
    match sub.settlement with
    | none => ⟨bubbled, d + 1, none⟩
    | some (r, rejected) =>
      if rejected then
        if sof then
          ⟨bubbled ++ finishActs td (p + r.passed) (f + r.failed), d + 1,
            finishSettle td (p + r.passed) (f + r.failed)⟩
        else
          let out := runLoop sof td rest (p + r.passed) (f + r.failed) (d + 1)
          ⟨bubbled ++ out.trace, out.dispatched, out.settlement⟩
      else
        let out := runLoop sof td rest (p + r.passed) f (d + 1)
        ⟨bubbled ++ out.trace, out.dispatched, out.settlement⟩
termination_by tests _ _ _ => sizeOf tests
decreasing_by
  all_goals simp_wf
  all_goals omega

/-- A full `run()` (index.js lines 54-73): reset state, call `setupFn`;
when setup resolves, emit `start` and enter the dispatch loop; when setup
rejects, nothing further ever happens and the promise never settles. -/
def runQueue (sof su td : Bool) (tests : List (QEntry V E I)) :
    RunOutput V E I :=
  if su then
    let l := runLoop sof td tests 0 0 0
    ⟨.runSetup :: .emitE (.startE []) :: l.trace, l.dispatched, l.settlement⟩
  else ⟨[.runSetup], 0, none⟩

/-- A configured queue: `stopOnFail` (constructor option, default true),
whether `setupFn` and `teardownFn` resolve, and the entries added by
`addTest` in insertion order. -/
structure TestQueue (V E I : Type) where
  stopOnFail : Bool := true
  setupResolves : Bool := true
  teardownResolves : Bool := true
  tests : List (QEntry V E I) := []

/-- The embedding of a queue used as a runnable of a parent entry. -/
def TestQueue.toRunnable (q : TestQueue V E I) : Runnable V E I :=
  .queue q.stopOnFail q.setupResolves q.teardownResolves q.tests

/-- Observable outcome of `q.run()`. -/
def TestQueue.run (q : TestQueue V E I) : RunOutput V E I :=
  runQueue q.stopOnFail q.setupResolves q.teardownResolves q.tests

/-- A leaf entry that settles as a pass. -/
def isPassingLeaf : QEntry V E I → Bool
  | (_, .leaf _ (.passR _)) => true
  | _ => false

/-- A leaf entry whose wrapping promise settles, as a pass or as a fail -
the shape of every entry in a queue described as holding leaves "of which
F fail and P pass". -/
def isSettlingLeaf : QEntry V E I → Bool
  | (_, .leaf _ (.passR _)) => true
  | (_, .leaf _ (.failR _)) => true
  | _ => false

mutual

/-- A runnable that cannot hang the chain: a leaf whose promise settles,
or a nested queue whose setup and teardown resolve and all of whose own
entries are hang-free. -/
def Runnable.noHang : Runnable V E I → Bool
  | .leaf _ (.passR _) => true
  | .leaf _ (.failR _) => true
  | .leaf _ .hangR => false
  | .queue _ su td tests => su && td && noHangList tests

/-- All entries of a list are hang-free. -/
def noHangList : List (QEntry V E I) → Bool
  | [] => true
  | e :: rest => e.2.noHang && noHangList rest

end

/-- Number of entries in an all-leaf list whose leaf passes. -/
def leafPasses : List (QEntry V E I) → Nat
  | [] => 0
  | (_, .leaf _ (.passR _)) :: rest => leafPasses rest + 1
  | _ :: rest => leafPasses rest

/-- Number of entries in an all-leaf list whose leaf fails. -/
def leafFails : List (QEntry V E I) → Nat
  | [] => 0
  | (_, .leaf _ (.failR _)) :: rest => leafFails rest + 1
  | _ :: rest => leafFails rest

/-- The contiguous block of actions one dispatched entry contributes to
the parent trace: for a leaf, its `info` emissions followed by its `pass`
or `fail` event (nothing more when its promise never settles); for a
nested queue, the relay image of the whole sub-run trace. -/
def entryTrace : QEntry V E I → List (Act V E I)
  | (name, .leaf infos (.passR v)) =>
    infos.map (fun i => .emitE (.infoE i)) ++ [.emitE (.passE name v)]
  | (name, .leaf infos (.failR e)) =>
    infos.map (fun i => .emitE (.infoE i)) ++ [.emitE (.failE name e)]
  | (_, .leaf infos .hangR) => infos.map (fun i => .emitE (.infoE i))
  | (name, .queue qsof qsu qtd qtests) =>
    (runQueue qsof qsu qtd qtests).trace.filterMap (bubble name)

section StepLemmas

variable {V E I : Type}

/-- Unfolding: an exhausted entry list finalizes. -/
theorem runLoop_nil (sof td : Bool) (p f d : Nat) :
    runLoop (V := V) (E := E) (I := I) sof td [] p f d
      = ⟨finishActs td p f, d, finishSettle td p f⟩ := by
  rw [runLoop]

/-- Unfolding: a passing leaf emits its infos and `pass`, increments
`passed`, advances the cursor and continues. -/
theorem runLoop_pass (sof td : Bool) (n : String) (infos : List I) (v : V)
    (rest : List (QEntry V E I)) (p f d : Nat) :
    runLoop sof td ((n, .leaf infos (.passR v)) :: rest) p f d
      = ⟨(infos.map fun i => Act.emitE (.infoE i))
            ++ Act.emitE (.passE n v)
            :: (runLoop sof td rest (p + 1) f (d + 1)).trace,
          (runLoop sof td rest (p + 1) f (d + 1)).dispatched,
          (runLoop sof td rest (p + 1) f (d + 1)).settlement⟩ := by
  rw [runLoop]

/-- Unfolding: a failing leaf under `stopOnFail` emits its infos and
`fail`, increments `failed` and finalizes at once. -/
theorem runLoop_fail_stop (td : Bool) (n : String) (infos : List I) (e : E)
    (rest : List (QEntry V E I)) (p f d : Nat) :
    runLoop true td ((n, .leaf infos (.failR e)) :: rest) p f d
      = ⟨(infos.map fun i => Act.emitE (.infoE i))
            ++ Act.emitE (.failE n e) :: finishActs td p (f + 1), d + 1,
          finishSettle td p (f + 1)⟩ := by
  rw [runLoop]
  simp

/-- Unfolding: a failing leaf without `stopOnFail` emits its infos and
`fail`, increments `failed`, advances the cursor and continues. -/
theorem runLoop_fail_go (td : Bool) (n : String) (infos : List I) (e : E)
    (rest : List (QEntry V E I)) (p f d : Nat) :
    runLoop false td ((n, .leaf infos (.failR e)) :: rest) p f d
      = ⟨(infos.map fun i => Act.emitE (.infoE i))
            ++ Act.emitE (.failE n e)
            :: (runLoop false td rest p (f + 1) (d + 1)).trace,
          (runLoop false td rest p (f + 1) (d + 1)).dispatched,
          (runLoop false td rest p (f + 1) (d + 1)).settlement⟩ := by
  rw [runLoop]
  simp

/-- Unfolding: a leaf whose promise never settles emits only its infos;
the cursor was already advanced at dispatch, but neither settlement
handler ever runs, so the run hangs with no further action. -/
theorem runLoop_leaf_hang (sof td : Bool) (n : String) (infos : List I)
    (rest : List (QEntry V E I)) (p f d : Nat) :
    runLoop sof td ((n, .leaf infos (.hangR)) :: rest) p f d
      = ⟨infos.map fun i => Act.emitE (.infoE i), d + 1, none⟩ := by
  rw [runLoop]

/-- Unfolding: a nested queue entry runs the sub-queue, bubbles its
events, and continues according to the sub-run's settlement. -/
theorem runLoop_queue (sof td : Bool) (n : String) (qsof qsu qtd : Bool)
    (qtests : List (String × Runnable V E I)) (rest : List (QEntry V E I))
    (p f d : Nat) :
    runLoop sof td ((n, .queue qsof qsu qtd qtests) :: rest) p f d
      = let sub := runQueue qsof qsu qtd qtests
        let bubbled := sub.trace.filterMap (bubble n)
        match sub.settlement with
        | none => ⟨bubbled, d + 1, none⟩
        | some (r, rejected) =>
          if rejected then
            if sof then
              ⟨bubbled ++ finishActs td (p + r.passed) (f + r.failed), d + 1,
                finishSettle td (p + r.passed) (f + r.failed)⟩
            else
              ⟨bubbled
                  ++ (runLoop sof td rest (p + r.passed) (f + r.failed)
                    (d + 1)).trace,
                (runLoop sof td rest (p + r.passed) (f + r.failed)
                  (d + 1)).dispatched,
                (runLoop sof td rest (p + r.passed) (f + r.failed)
                  (d + 1)).settlement⟩
          else
            ⟨bubbled
                ++ (runLoop sof td rest (p + r.passed) f (d + 1)).trace,
              (runLoop sof td rest (p + r.passed) f (d + 1)).dispatched,
              (runLoop sof td rest (p + r.passed) f (d + 1)).settlement⟩ := by
  rw [runLoop]
  rfl

end StepLemmas

section DerivedStepLemmas

variable {V E I : Type}

/-- Unfolding: `run()` when setup resolves. -/
theorem runQueue_setup_ok (sof td : Bool) (tests : List (QEntry V E I)) :
    runQueue sof true td tests
      = ⟨Act.runSetup :: Act.emitE (.startE [])
            :: (runLoop sof td tests 0 0 0).trace,
          (runLoop sof td tests 0 0 0).dispatched,
          (runLoop sof td tests 0 0 0).settlement⟩ := by
  simp [runQueue]

/-- Unfolding: `run()` when setup rejects: the chain stops after the
setup call and the promise never settles. -/
theorem runQueue_setup_reject (sof td : Bool) (tests : List (QEntry V E I)) :
    runQueue sof false td tests = ⟨[Act.runSetup], 0, none⟩ := by
  simp [runQueue]

/-- A nested entry whose sub-run never settles leaves the parent hung:
only the bubbled events are observed and the parent never continues. -/
theorem runLoop_queue_hang (sof td : Bool) (n : String) (qsof qsu qtd : Bool)
    (qtests : List (String × Runnable V E I)) (rest : List (QEntry V E I))
    (p f d : Nat)
    (h : (runQueue qsof qsu qtd qtests).settlement = none) :
    runLoop sof td ((n, .queue qsof qsu qtd qtests) :: rest) p f d
      = ⟨(runQueue qsof qsu qtd qtests).trace.filterMap (bubble n), d + 1,
          none⟩ := by
  rw [runLoop_queue]
  simp [h]

/-- A nested entry whose sub-run resolves: `_onPassQueue` adds only the
sub-results' `passed` and continues with the next entry. -/
theorem runLoop_queue_resolve (sof td : Bool) (n : String)
    (qsof qsu qtd : Bool) (qtests : List (String × Runnable V E I))
    (rest : List (QEntry V E I)) (p f d : Nat) (r : Results)
    (h : (runQueue qsof qsu qtd qtests).settlement = some (r, false)) :
    runLoop sof td ((n, .queue qsof qsu qtd qtests) :: rest) p f d
      = ⟨(runQueue qsof qsu qtd qtests).trace.filterMap (bubble n)
            ++ (runLoop sof td rest (p + r.passed) f (d + 1)).trace,
          (runLoop sof td rest (p + r.passed) f (d + 1)).dispatched,
          (runLoop sof td rest (p + r.passed) f (d + 1)).settlement⟩ := by
  rw [runLoop_queue]
  simp [h]

/-- A nested entry whose sub-run rejects, under `stopOnFail`:
`_onErrorQueue` adds the sub-results' `passed` and `failed` and finalizes
immediately. -/
theorem runLoop_queue_reject_stop (td : Bool) (n : String)
    (qsof qsu qtd : Bool) (qtests : List (String × Runnable V E I))
    (rest : List (QEntry V E I)) (p f d : Nat) (r : Results)
    (h : (runQueue qsof qsu qtd qtests).settlement = some (r, true)) :
    runLoop true td ((n, .queue qsof qsu qtd qtests) :: rest) p f d
      = ⟨(runQueue qsof qsu qtd qtests).trace.filterMap (bubble n)
            ++ finishActs td (p + r.passed) (f + r.failed), d + 1,
          finishSettle td (p + r.passed) (f + r.failed)⟩ := by
  rw [runLoop_queue]
  simp [h]

/-- A nested entry whose sub-run rejects, without `stopOnFail`:
`_onErrorQueue` adds the sub-results' `passed` and `failed` and continues
with the next entry. -/
theorem runLoop_queue_reject_go (td : Bool) (n : String)
    (qsof qsu qtd : Bool) (qtests : List (String × Runnable V E I))
    (rest : List (QEntry V E I)) (p f d : Nat) (r : Results)
    (h : (runQueue qsof qsu qtd qtests).settlement = some (r, true)) :
    runLoop false td ((n, .queue qsof qsu qtd qtests) :: rest) p f d
      = ⟨(runQueue qsof qsu qtd qtests).trace.filterMap (bubble n)
            ++ (runLoop false td rest (p + r.passed) (f + r.failed)
              (d + 1)).trace,
          (runLoop false td rest (p + r.passed) (f + r.failed)
            (d + 1)).dispatched,
          (runLoop false td rest (p + r.passed) (f + r.failed)
            (d + 1)).settlement⟩ := by
  rw [runLoop_queue]
  simp [h]

/-- Unfolding the observable outcome of `q.run()`. -/
theorem TestQueue.run_eq (q : TestQueue V E I) :
    q.run = runQueue q.stopOnFail q.setupResolves q.teardownResolves
      q.tests := rfl

end DerivedStepLemmas

section MainLemmas

variable {V E I : Type}

/-- Everything the relay re-emits on the parent is an event emission. -/
theorem bubble_emitE (n : String) (a a' : Act V E I)
    (h : bubble n a = some a') : ∃ ev, a' = Act.emitE ev := by
  match a with
  | .runSetup => simp [bubble] at h
  | .runTeardown => simp [bubble] at h
  | .settleA b r => simp [bubble] at h
  | .emitE (.startE names) =>
    simp [bubble] at h
    exact ⟨_, h.symm⟩
  | .emitE (.passE m v) =>
    simp [bubble] at h
    exact ⟨_, h.symm⟩
  | .emitE (.failE m e) =>
    simp [bubble] at h
    exact ⟨_, h.symm⟩
  | .emitE (.infoE i) =>
    simp [bubble] at h
    exact ⟨_, h.symm⟩
  | .emitE (.finishE r x) =>
    simp [bubble] at h
    exact ⟨_, h.symm⟩

/-- Processing a segment of passing leaves emits the per-leaf blocks in
insertion order, adds one to `passed` and to the cursor per leaf, and
continues with the remaining entries. -/
theorem runLoop_passing_seg (sof td : Bool) (pre rest : List (QEntry V E I))
    (hpre : ∀ x ∈ pre, isPassingLeaf x = true) (p f d : Nat) :
    (runLoop sof td (pre ++ rest) p f d).trace
        = (pre.map entryTrace).flatten
          ++ (runLoop sof td rest (p + pre.length) f
            (d + pre.length)).trace
      ∧ (runLoop sof td (pre ++ rest) p f d).settlement
        = (runLoop sof td rest (p + pre.length) f
          (d + pre.length)).settlement
      ∧ (runLoop sof td (pre ++ rest) p f d).dispatched
        = (runLoop sof td rest (p + pre.length) f
          (d + pre.length)).dispatched := by
  induction pre generalizing p d with
  | nil => simp
  | cons x pre ih =>
    obtain ⟨n, r⟩ := x
    have hx := hpre (n, r) (by simp)
    match r with
    | .leaf infos (.passR v) =>
      rw [List.cons_append, runLoop_pass]
      have harith : p + 1 + pre.length = p + (pre.length + 1) := by omega
      have harith2 : d + 1 + pre.length = d + (pre.length + 1) := by omega
      have := ih (fun y hy => hpre y (List.mem_cons_of_mem _ hy)) (p + 1)
        (d + 1)
      rw [harith, harith2] at this
      obtain ⟨htr, hset, hdisp⟩ := this
      refine ⟨?_, by simpa using hset, by simpa using hdisp⟩
      simp only [List.map_cons, List.flatten_cons, entryTrace]
      rw [htr]
      simp
    | .leaf infos (.failR e) => simp [isPassingLeaf] at hx
    | .queue a b c qtests => simp [isPassingLeaf] at hx

end MainLemmas

/-- Any settlement the loop ever produces comes out of `_onFinish`: it can
only exist when teardown resolves, it rejects exactly when the final
`failed` count is positive, and the counters only ever grow from their
values at entry. -/
theorem runLoop_settle_char {V E I : Type} (sof td : Bool) :
    ∀ (tests : List (QEntry V E I)) (p f d : Nat) (r : Results) (b : Bool),
      (runLoop sof td tests p f d).settlement = some (r, b) →
        td = true ∧ b = (r.failed != 0) ∧ p ≤ r.passed ∧ f ≤ r.failed := by
  intro tests
  induction tests with
  | nil =>
    intro p f d r b h
    rw [runLoop_nil] at h
    unfold finishSettle at h
    split at h
    · next htd =>
      cases h
      exact ⟨htd, rfl, le_refl _, le_refl _⟩
    · exact absurd h (by simp)
  | cons x rest ih =>
    intro p f d r b h
    obtain ⟨n, rr⟩ := x
    match rr with
    | .leaf infos (.passR v) =>
      rw [runLoop_pass] at h
      obtain ⟨htd, hb, hp, hf⟩ := ih (p + 1) f (d + 1) r b h
      exact ⟨htd, hb, by omega, hf⟩
    | .leaf infos (.failR e) =>
      match sof with
      | true =>
        rw [runLoop_fail_stop] at h
        unfold finishSettle at h
        split at h
        · next htd =>
          cases h
          exact ⟨htd, rfl, le_refl _, by show f ≤ f + 1; omega⟩
        · exact absurd h (by simp)
      | false =>
        rw [runLoop_fail_go] at h
        obtain ⟨htd, hb, hp, hf⟩ := ih p (f + 1) (d + 1) r b h
        exact ⟨htd, hb, hp, by omega⟩
    | .leaf infos .hangR =>
      rw [runLoop_leaf_hang] at h
      simp at h
    | .queue qsof qsu qtd qtests =>
      rcases hsub : (runQueue qsof qsu qtd qtests).settlement with _ | ⟨r0, rej⟩
      · rw [runLoop_queue_hang sof td n qsof qsu qtd qtests rest p f d hsub]
          at h
        simp at h
      · match rej with
        | false =>
          rw [runLoop_queue_resolve sof td n qsof qsu qtd qtests rest p f d
            r0 hsub] at h
          obtain ⟨htd, hb, hp, hf⟩ := ih (p + r0.passed) f (d + 1) r b h
          exact ⟨htd, hb, by omega, hf⟩
        | true =>
          match sof with
          | true =>
            rw [runLoop_queue_reject_stop td n qsof qsu qtd qtests rest p f d
              r0 hsub] at h
            simp only at h
            unfold finishSettle at h
            split at h
            · next htd =>
              cases h
              exact ⟨htd, rfl, by show p ≤ p + r0.passed; omega,
                by show f ≤ f + r0.failed; omega⟩
            · exact absurd h (by simp)
          | false =>
            rw [runLoop_queue_reject_go td n qsof qsu qtd qtests rest p f d
              r0 hsub] at h
            obtain ⟨htd, hb, hp, hf⟩ := ih (p + r0.passed) (f + r0.failed)
              (d + 1) r b h
            exact ⟨htd, hb, by omega, by omega⟩

/-- Splitting a hang-free entry list. -/
theorem noHangList_cons {V E I : Type} (x : QEntry V E I)
    (rest : List (QEntry V E I)) :
    noHangList (x :: rest) = (x.2.noHang && noHangList rest) := by
  rw [noHangList]

/-- When teardown resolves and no entry can hang the chain, the loop
always settles the run promise. -/
theorem runLoop_noHang_isSome {V E I : Type} :
    ∀ (sof td : Bool) (tests : List (QEntry V E I)) (p f d : Nat),
      td = true → noHangList tests = true →
        (runLoop sof td tests p f d).settlement.isSome = true := by
  intro sof td tests p f d
  induction sof, td, tests, p, f, d using runLoop.induct with
  | case1 sof td p f d =>
    intro htd hnh
    rw [runLoop_nil]
    simp [finishSettle, htd]
  | case2 sof td name infos rest p f d v ih =>
    intro htd hnh
    rw [runLoop_pass]
    rw [noHangList_cons] at hnh
    simp [Runnable.noHang] at hnh
    exact ih htd hnh
  | case3 td name infos rest p f d e =>
    intro htd hnh
    rw [runLoop_fail_stop]
    simp [finishSettle, htd]
  | case4 sof td name infos rest p f d e hnsof ih =>
    intro htd hnh
    have hsof : sof = false := by
      cases sof
      · rfl
      · exact absurd rfl hnsof
    subst hsof
    rw [runLoop_fail_go]
    rw [noHangList_cons] at hnh
    simp [Runnable.noHang] at hnh
    exact ih htd hnh
  | case5 sof td name infos rest p f d =>
    intro htd hnh
    rw [noHangList_cons] at hnh
    simp [Runnable.noHang] at hnh
  | case6 sof td name qsof qsu qtd qtests rest p f d SUB hsub ihsub =>
    intro htd hnh
    rw [noHangList_cons] at hnh
    simp [Runnable.noHang] at hnh
    obtain ⟨⟨⟨hqsu, hqtd⟩, hqnh⟩, hrest⟩ := hnh
    subst hqsu
    unfold SUB at hsub
    simp only [dite_true] at hsub
    have := ihsub hqtd hqnh
    rw [hsub] at this
    simp at this
  | case7 td name qsof qsu qtd qtests rest p f d SUB r hsub ihsub =>
    intro htd hnh
    rw [noHangList_cons] at hnh
    simp [Runnable.noHang] at hnh
    obtain ⟨⟨⟨hqsu, hqtd⟩, hqnh⟩, hrest⟩ := hnh
    subst hqsu
    unfold SUB at hsub
    simp only [dite_true] at hsub
    have hsub2 : (runQueue qsof true qtd qtests).settlement = some (r, true)
      := by rw [runQueue_setup_ok]; exact hsub
    rw [runLoop_queue_reject_stop td name qsof true qtd qtests rest p f d r
      hsub2]
    simp [finishSettle, htd]
  | case8 sof td name qsof qsu qtd qtests rest p f d SUB r hnsof hsub ihsub
      ihrest =>
    intro htd hnh
    have hsof : sof = false := by
      cases sof
      · rfl
      · exact absurd rfl hnsof
    subst hsof
    rw [noHangList_cons] at hnh
    simp [Runnable.noHang] at hnh
    obtain ⟨⟨⟨hqsu, hqtd⟩, hqnh⟩, hrest⟩ := hnh
    subst hqsu
    unfold SUB at hsub
    simp only [dite_true] at hsub
    have hsub2 : (runQueue qsof true qtd qtests).settlement = some (r, true)
      := by rw [runQueue_setup_ok]; exact hsub
    rw [runLoop_queue_reject_go td name qsof true qtd qtests rest p f d r
      hsub2]
    exact ihrest htd hrest
  | case9 sof td name qsof qsu qtd qtests rest p f d SUB r rejected hsub
      hrej ihsub ihrest =>
    intro htd hnh
    have hrejf : rejected = false := by
      cases rejected
      · rfl
      · exact absurd rfl hrej
    subst hrejf
    rw [noHangList_cons] at hnh
    simp [Runnable.noHang] at hnh
    obtain ⟨⟨⟨hqsu, hqtd⟩, hqnh⟩, hrest⟩ := hnh
    subst hqsu
    unfold SUB at hsub
    simp only [dite_true] at hsub
    have hsub2 : (runQueue qsof true qtd qtests).settlement = some (r, false)
      := by rw [runQueue_setup_ok]; exact hsub
    rw [runLoop_queue_resolve sof td name qsof true qtd qtests rest p f d r
      hsub2]
    exact ihrest htd hrest

/-- Bubbled sub-run actions are all event emissions. -/
theorem bubbled_emitE {V E I : Type} (n : String) (l : List (Act V E I)) :
    ∀ a ∈ l.filterMap (bubble n), ∃ ev, a = Act.emitE ev := by
  intro a ha
  rw [List.mem_filterMap] at ha
  obtain ⟨b, _, hgb⟩ := ha
  exact bubble_emitE n b a hgb

/-- When no entry can hang the chain, the loop always reaches
`_onFinish`: its trace is some event emissions followed by the `finish`
emission, the teardown invocation and (when teardown resolves) the
settlement; the final counters dominate the counters at entry. -/
theorem runLoop_finalizes {V E I : Type} (sof td : Bool) :
    ∀ (tests : List (QEntry V E I)), noHangList tests = true →
      ∀ p f d, ∃ (evs : List (Act V E I)) (pr fl : Nat),
        (∀ a ∈ evs, ∃ ev, a = Act.emitE ev) ∧
        (runLoop sof td tests p f d).trace = evs ++ finishActs td pr fl ∧
        (runLoop sof td tests p f d).settlement = finishSettle td pr fl ∧
        p ≤ pr ∧ f ≤ fl := by
  intro tests
  induction tests with
  | nil =>
    intro _ p f d
    exact ⟨[], p, f, by simp, by rw [runLoop_nil]; simp,
      by rw [runLoop_nil], le_refl _, le_refl _⟩
  | cons x rest ih =>
    intro hnh p f d
    rw [noHangList_cons] at hnh
    simp at hnh
    obtain ⟨hx, hrest⟩ := hnh
    obtain ⟨n, rr⟩ := x
    match rr with
    | .leaf infos (.passR v) =>
      obtain ⟨evs, pr, fl, hall, htr, hset, hp, hf⟩ := ih hrest (p + 1) f
        (d + 1)
      refine ⟨(infos.map fun i => Act.emitE (.infoE i))
        ++ Act.emitE (.passE n v) :: evs, pr, fl, ?_, ?_, ?_, by omega, hf⟩
      · intro a ha
        simp at ha
        rcases ha with ⟨i, _, rfl⟩ | rfl | ha
        · exact ⟨_, rfl⟩
        · exact ⟨_, rfl⟩
        · exact hall a ha
      · rw [runLoop_pass, htr]
        simp
      · rw [runLoop_pass]
        exact hset
    | .leaf infos (.failR e) =>
      match sof with
      | true =>
        refine ⟨(infos.map fun i => Act.emitE (.infoE i))
          ++ [Act.emitE (.failE n e)], p, f + 1, ?_, ?_, ?_, le_refl _,
          by omega⟩
        · intro a ha
          simp at ha
          rcases ha with ⟨i, _, rfl⟩ | rfl
          · exact ⟨_, rfl⟩
          · exact ⟨_, rfl⟩
        · rw [runLoop_fail_stop]
          simp
        · rw [runLoop_fail_stop]
      | false =>
        obtain ⟨evs, pr, fl, hall, htr, hset, hp, hf⟩ := ih hrest p (f + 1)
          (d + 1)
        refine ⟨(infos.map fun i => Act.emitE (.infoE i))
          ++ Act.emitE (.failE n e) :: evs, pr, fl, ?_, ?_, ?_, hp,
          by omega⟩
        · intro a ha
          simp at ha
          rcases ha with ⟨i, _, rfl⟩ | rfl | ha
          · exact ⟨_, rfl⟩
          · exact ⟨_, rfl⟩
          · exact hall a ha
        · rw [runLoop_fail_go, htr]
          simp
        · rw [runLoop_fail_go]
          exact hset
    | .queue qsof qsu qtd qtests =>
      simp [Runnable.noHang] at hx
      obtain ⟨⟨hqsu, hqtd⟩, hqnh⟩ := hx
      subst hqsu
      subst hqtd
      have hsome := runLoop_noHang_isSome qsof true qtests 0 0 0 rfl hqnh
      have hsome2 : (runQueue qsof true true qtests).settlement.isSome
          = true := by
        rw [runQueue_setup_ok]
        exact hsome
      rcases hs : (runQueue qsof true true qtests).settlement with _ | ⟨r0, b0⟩
      · rw [hs] at hsome2
        simp at hsome2
      · match b0 with
        | false =>
          obtain ⟨evs, pr, fl, hall, htr, hset, hp, hf⟩ := ih hrest
            (p + r0.passed) f (d + 1)
          refine ⟨(runQueue qsof true true qtests).trace.filterMap (bubble n)
            ++ evs, pr, fl, ?_, ?_, ?_, by omega, hf⟩
          · intro a ha
            rcases List.mem_append.1 ha with ha | ha
            · exact bubbled_emitE n _ a ha
            · exact hall a ha
          · rw [runLoop_queue_resolve sof td n qsof true true qtests rest
              p f d r0 hs, htr]
            simp
          · rw [runLoop_queue_resolve sof td n qsof true true qtests rest
              p f d r0 hs]
            exact hset
        | true =>
          match sof with
          | true =>
            refine ⟨(runQueue qsof true true qtests).trace.filterMap
              (bubble n), p + r0.passed, f + r0.failed, ?_, ?_, ?_,
              by omega, by omega⟩
            · exact bubbled_emitE n _
            · rw [runLoop_queue_reject_stop td n qsof true true qtests rest
                p f d r0 hs]
            · rw [runLoop_queue_reject_stop td n qsof true true qtests rest
                p f d r0 hs]
          | false =>
            obtain ⟨evs, pr, fl, hall, htr, hset, hp, hf⟩ := ih hrest
              (p + r0.passed) (f + r0.failed) (d + 1)
            refine ⟨(runQueue qsof true true qtests).trace.filterMap
              (bubble n) ++ evs, pr, fl, ?_, ?_, ?_, by omega, by omega⟩
            · intro a ha
              rcases List.mem_append.1 ha with ha | ha
              · exact bubbled_emitE n _ a ha
              · exact hall a ha
            · rw [runLoop_queue_reject_go td n qsof true true qtests rest
                p f d r0 hs, htr]
              simp
            · rw [runLoop_queue_reject_go td n qsof true true qtests rest
                p f d r0 hs]
              exact hset

/-- With `stopOnFail` disabled, a queue of leaf entries processes every
entry, in insertion order, each contributing its contiguous block of
events; the final counters are the numbers of passing and failing leaves
added to the counters at entry, and the cursor advances once per entry. -/
theorem runLoop_leaves_go {V E I : Type} (td : Bool) :
    ∀ (tests : List (QEntry V E I)), (∀ x ∈ tests, isSettlingLeaf x = true) →
      ∀ p f d,
        runLoop false td tests p f d
          = ⟨(tests.map entryTrace).flatten
                ++ finishActs td (p + leafPasses tests)
                  (f + leafFails tests),
              d + tests.length,
              finishSettle td (p + leafPasses tests)
                (f + leafFails tests)⟩ := by
  intro tests
  induction tests with
  | nil =>
    intro _ p f d
    rw [runLoop_nil]
    simp [leafPasses, leafFails]
  | cons x rest ih =>
    intro hl p f d
    obtain ⟨n, rr⟩ := x
    have hrest : ∀ x ∈ rest, isSettlingLeaf x = true :=
      fun y hy => hl y (List.mem_cons_of_mem _ hy)
    match rr with
    | .leaf infos (.passR v) =>
      rw [runLoop_pass, ih hrest (p + 1) f (d + 1)]
      have e1 : leafPasses ((n, Runnable.leaf infos (.passR v)) :: rest)
          = leafPasses rest + 1 := by simp [leafPasses]
      have e2 : leafFails ((n, Runnable.leaf infos (.passR v)) :: rest)
          = leafFails rest := by simp [leafFails]
      rw [e1, e2]
      have e3 : p + (leafPasses rest + 1) = p + 1 + leafPasses rest := by
        omega
      rw [e3]
      simp [entryTrace]
      omega
    | .leaf infos (.failR e) =>
      rw [runLoop_fail_go, ih hrest p (f + 1) (d + 1)]
      have e1 : leafPasses ((n, Runnable.leaf infos (.failR e)) :: rest)
          = leafPasses rest := by simp [leafPasses]
      have e2 : leafFails ((n, Runnable.leaf infos (.failR e)) :: rest)
          = leafFails rest + 1 := by simp [leafFails]
      rw [e1, e2]
      have e3 : f + (leafFails rest + 1) = f + 1 + leafFails rest := by
        omega
      rw [e3]
      simp [entryTrace]
      omega
    | .leaf infos .hangR =>
      have := hl (n, .leaf infos .hangR) (by simp)
      simp [isSettlingLeaf] at this
    | .queue a b c qtests =>
      have := hl (n, .queue a b c qtests) (by simp)
      simp [isSettlingLeaf] at this

/-- The parent's trace for a nested-queue head entry always opens with the
bubbled sub-run trace (whatever happens afterwards). -/
theorem runLoop_queue_head_trace {V E I : Type} (sof td : Bool) (n : String)
    (qsof qsu qtd : Bool) (qtests : List (String × Runnable V E I))
    (rest : List (QEntry V E I)) (p f d : Nat) :
    ∃ tail,
      (runLoop sof td ((n, .queue qsof qsu qtd qtests) :: rest) p f d).trace
        = (runQueue qsof qsu qtd qtests).trace.filterMap (bubble n)
          ++ tail := by
  rcases hs : (runQueue qsof qsu qtd qtests).settlement with _ | ⟨r, b⟩
  · refine ⟨[], ?_⟩
    rw [runLoop_queue_hang sof td n qsof qsu qtd qtests rest p f d hs]
    simp
  · match b with
    | false =>
      exact ⟨_, by
        rw [runLoop_queue_resolve sof td n qsof qsu qtd qtests rest p f d r
          hs]⟩
    | true =>
      match sof with
      | true =>
        exact ⟨_, by
          rw [runLoop_queue_reject_stop td n qsof qsu qtd qtests rest p f d r
            hs]⟩
      | false =>
        exact ⟨_, by
          rw [runLoop_queue_reject_go td n qsof qsu qtd qtests rest p f d r
            hs]⟩

/-- Settlement of a run whose setup resolves is the loop's settlement. -/
theorem runQueue_ok_settlement {V E I : Type} (sof td : Bool)
    (tests : List (QEntry V E I)) :
    (runQueue sof true td tests).settlement
      = (runLoop sof td tests 0 0 0).settlement := by
  rw [runQueue_setup_ok]

/-- Cursor of a run whose setup resolves is the loop's cursor. -/
theorem runQueue_ok_dispatched {V E I : Type} (sof td : Bool)
    (tests : List (QEntry V E I)) :
    (runQueue sof true td tests).dispatched
      = (runLoop sof td tests 0 0 0).dispatched := by
  rw [runQueue_setup_ok]

/-- Trace of a run whose setup resolves: the setup call, the `start`
emission, then the loop's trace. -/
theorem runQueue_ok_trace {V E I : Type} (sof td : Bool)
    (tests : List (QEntry V E I)) :
    (runQueue sof true td tests).trace
      = Act.runSetup :: Act.emitE (.startE [])
        :: (runLoop sof td tests 0 0 0).trace := by
  rw [runQueue_setup_ok]

/-- Universal sequential decomposition of the loop, with no hypothesis on
the shape of the entries or on `stopOnFail`: some prefix of k entries is
processed; each processed entry contributes its contiguous `entryTrace`
block (for a nested queue, the bubbled sub-run trace) and the blocks are
concatenated in insertion order with nothing interleaved; the cursor
advances exactly k times, so entries beyond the k-th are never
dispatched; and after the k-th block the trace holds either nothing (the
k-th entry hung the chain) or the finalization actions alone. -/
theorem runLoop_blocks {V E I : Type} (sof td : Bool) :
    ∀ (tests : List (QEntry V E I)) (p f d : Nat),
      ∃ (k : Nat) (tail : List (Act V E I)),
        k ≤ tests.length
        ∧ (runLoop sof td tests p f d).trace
            = ((tests.take k).map entryTrace).flatten ++ tail
        ∧ (runLoop sof td tests p f d).dispatched = d + k
        ∧ (tail = [] ∨ ∃ pr fl, tail = finishActs td pr fl) := by
  intro tests
  induction tests with
  | nil =>
    intro p f d
    refine ⟨0, finishActs td p f, by simp, ?_, ?_, Or.inr ⟨p, f, rfl⟩⟩
    · rw [runLoop_nil]
      simp
    · rw [runLoop_nil]
      simp
  | cons x rest ih =>
    intro p f d
    obtain ⟨n, rr⟩ := x
    match rr with
    | .leaf infos (.passR v) =>
      obtain ⟨k, tail, hk, htr, hd, htail⟩ := ih (p + 1) f (d + 1)
      refine ⟨k + 1, tail, by simpa using Nat.succ_le_succ hk, ?_, ?_,
        htail⟩
      · rw [runLoop_pass]
        simp only [List.take_succ_cons, List.map_cons, List.flatten_cons,
          entryTrace]
        rw [htr]
        simp
      · rw [runLoop_pass, hd]
        omega
    | .leaf infos (.failR e) =>
      match sof with
      | true =>
        refine ⟨1, finishActs td p (f + 1), by simp, ?_, ?_,
          Or.inr ⟨p, f + 1, rfl⟩⟩
        · rw [runLoop_fail_stop]
          simp [entryTrace]
        · rw [runLoop_fail_stop]
      | false =>
        obtain ⟨k, tail, hk, htr, hd, htail⟩ := ih p (f + 1) (d + 1)
        refine ⟨k + 1, tail, by simpa using Nat.succ_le_succ hk, ?_, ?_,
          htail⟩
        · rw [runLoop_fail_go]
          simp only [List.take_succ_cons, List.map_cons,
            List.flatten_cons, entryTrace]
          rw [htr]
          simp
        · rw [runLoop_fail_go, hd]
          omega
    | .leaf infos .hangR =>
      refine ⟨1, [], by simp, ?_, ?_, Or.inl rfl⟩
      · rw [runLoop_leaf_hang]
        simp [entryTrace]
      · rw [runLoop_leaf_hang]
    | .queue qsof qsu qtd qtests =>
      rcases hs : (runQueue qsof qsu qtd qtests).settlement
        with _ | ⟨r0, b0⟩
      · refine ⟨1, [], by simp, ?_, ?_, Or.inl rfl⟩
        · rw [runLoop_queue_hang sof td n qsof qsu qtd qtests rest p f d
            hs]
          simp [entryTrace]
        · rw [runLoop_queue_hang sof td n qsof qsu qtd qtests rest p f d
            hs]
      · match b0 with
        | false =>
          obtain ⟨k, tail, hk, htr, hd, htail⟩ := ih (p + r0.passed) f
            (d + 1)
          refine ⟨k + 1, tail, by simpa using Nat.succ_le_succ hk, ?_, ?_,
            htail⟩
          · rw [runLoop_queue_resolve sof td n qsof qsu qtd qtests rest
              p f d r0 hs]
            simp only [List.take_succ_cons, List.map_cons,
              List.flatten_cons, entryTrace]
            rw [htr]
            simp
          · rw [runLoop_queue_resolve sof td n qsof qsu qtd qtests rest
              p f d r0 hs, hd]
            omega
        | true =>
          match sof with
          | true =>
            refine ⟨1, finishActs td (p + r0.passed) (f + r0.failed),
              by simp, ?_, ?_, Or.inr ⟨p + r0.passed, f + r0.failed, rfl⟩⟩
            · rw [runLoop_queue_reject_stop td n qsof qsu qtd qtests rest
                p f d r0 hs]
              simp [entryTrace]
            · rw [runLoop_queue_reject_stop td n qsof qsu qtd qtests rest
                p f d r0 hs]
          | false =>
            obtain ⟨k, tail, hk, htr, hd, htail⟩ := ih (p + r0.passed)
              (f + r0.failed) (d + 1)
            refine ⟨k + 1, tail, by simpa using Nat.succ_le_succ hk, ?_,
              ?_, htail⟩
            · rw [runLoop_queue_reject_go td n qsof qsu qtd qtests rest
                p f d r0 hs]
              simp only [List.take_succ_cons, List.map_cons,
                List.flatten_cons, entryTrace]
              rw [htr]
              simp
            · rw [runLoop_queue_reject_go td n qsof qsu qtd qtests rest
                p f d r0 hs, hd]
              omega

/-- C1: for every queue with stopOnFail = true whose entry at index k is a
failing leaf while all k entries before it are passing leaves (and with
setup and teardown resolving so the run settles), the run settles rejected
with results passed = k, failed = 1, and the cursor stops at k + 1: no
entry after index k is ever dispatched. -/
theorem c1_stop_on_fail_halts_at_first_failure {V E I : Type}
    (q : TestQueue V E I) (pre post : List (QEntry V E I)) (n : String)
    (infos : List I) (e : E) (k : Nat)
    (hsof : q.stopOnFail = true) (hsu : q.setupResolves = true)
    (htd : q.teardownResolves = true)
    (hq : q.tests = pre ++ (n, .leaf infos (.failR e)) :: post)
    (hpre : ∀ x ∈ pre, isPassingLeaf x = true)
    (hk : pre.length = k) :
    q.run.settlement = some (⟨k, 1⟩, true)
      ∧ q.run.dispatched = k + 1 := by
  subst hk
  rw [TestQueue.run_eq, hsof, hsu, htd, hq]
  obtain ⟨_, hset, hdisp⟩ := runLoop_passing_seg true true pre
    ((n, .leaf infos (.failR e)) :: post) hpre 0 0 0
  constructor
  · rw [runQueue_ok_settlement, hset, runLoop_fail_stop]
    simp [finishSettle]
  · rw [runQueue_ok_dispatched, hdisp, runLoop_fail_stop]
    simp

/-- Concrete queue for the C1 witness: two passing leaves, a failing
leaf, then one more entry. -/
def c1q : TestQueue Nat Nat Nat :=
  { tests := [("a", .leaf [] (.passR 1)), ("b", .leaf [] (.passR 2)),
      ("c", .leaf [] (.failR 7)), ("d", .leaf [] (.passR 3))] }

/-- Witness for C1: on `c1q` the run rejects with passed = 2, failed = 1
and only three entries are ever dispatched. -/
theorem c1_witness :
    c1q.stopOnFail = true
      ∧ (c1q.run.settlement = some (⟨2, 1⟩, true)
        ∧ c1q.run.dispatched = 2 + 1) := by
  refine ⟨rfl, ?_⟩
  exact c1_stop_on_fail_halts_at_first_failure c1q
    [("a", .leaf [] (.passR 1)), ("b", .leaf [] (.passR 2))]
    [("d", .leaf [] (.passR 3))] "c" [] 7 2 rfl rfl rfl rfl
    (by decide) rfl

/-- C2: for a parent queue whose head entry is a nested queue: when the
sub-run resolves with results r, the parent continues with the remaining
entries having added only r.passed to its passed counter (failed stays 0);
when the sub-run rejects with results r, the parent has added r.passed and
r.failed - and nothing more: no extra failure for the rejection itself -
and, if stopOnFail, finalizes immediately with exactly those counts
(dispatching no further entry), otherwise continues with the remaining
entries. -/
theorem c2_nested_queue_folding {V E I : Type}
    (q s : TestQueue V E I) (n : String) (rest : List (QEntry V E I))
    (hq : q.tests = (n, s.toRunnable) :: rest)
    (hsu : q.setupResolves = true) :
    (∀ r : Results, s.run.settlement = some (r, false) →
        q.run.settlement
          = (runLoop q.stopOnFail q.teardownResolves rest r.passed 0
            1).settlement)
    ∧ (∀ r : Results, s.run.settlement = some (r, true) →
        (q.stopOnFail = true →
            q.run.settlement
              = finishSettle q.teardownResolves r.passed r.failed
            ∧ q.run.dispatched = 1)
        ∧ (q.stopOnFail = false →
            q.run.settlement
              = (runLoop false q.teardownResolves rest r.passed r.failed
                1).settlement)) := by
  have hrunq : q.run
      = runQueue q.stopOnFail true q.teardownResolves
        ((n, Runnable.queue s.stopOnFail s.setupResolves s.teardownResolves
          s.tests) :: rest) := by
    rw [TestQueue.run_eq, hsu, hq, TestQueue.toRunnable]
  constructor
  · intro r hr
    rw [TestQueue.run_eq] at hr
    rw [hrunq, runQueue_ok_settlement,
      runLoop_queue_resolve q.stopOnFail q.teardownResolves n s.stopOnFail
        s.setupResolves s.teardownResolves s.tests rest 0 0 0 r hr]
    simp
  · intro r hr
    rw [TestQueue.run_eq] at hr
    constructor
    · intro hsof
      rw [hsof] at hrunq
      constructor
      · rw [hrunq, runQueue_ok_settlement,
          runLoop_queue_reject_stop q.teardownResolves n s.stopOnFail
            s.setupResolves s.teardownResolves s.tests rest 0 0 0 r hr]
        simp
      · rw [hrunq, runQueue_ok_dispatched,
          runLoop_queue_reject_stop q.teardownResolves n s.stopOnFail
            s.setupResolves s.teardownResolves s.tests rest 0 0 0 r hr]
    · intro hsof
      rw [hsof] at hrunq
      rw [hrunq, runQueue_ok_settlement,
        runLoop_queue_reject_go q.teardownResolves n s.stopOnFail
          s.setupResolves s.teardownResolves s.tests rest 0 0 0 r hr]
      simp

/-- Concrete sub-queue for the C2 witness: two passes and one fail with
stopOnFail disabled, so its run rejects with passed = 2, failed = 1. -/
def c2s : TestQueue Nat Nat Nat :=
  { stopOnFail := false,
    tests := [("x", .leaf [] (.passR 1)), ("y", .leaf [] (.failR 9)),
      ("z", .leaf [] (.passR 2))] }

/-- Concrete parent queue for the C2 witness: the sub-queue, then one
more leaf entry. -/
def c2q : TestQueue Nat Nat Nat :=
  { stopOnFail := false,
    tests := [("sub", c2s.toRunnable), ("after", .leaf [] (.passR 3))] }

/-- Tail entries of the C2 witness parent. -/
def c2rest : List (QEntry Nat Nat Nat) :=
  [("after", Runnable.leaf [] (.passR 3))]

/-- Witness for C2 at the concrete parent `c2q` with nested `c2s`. -/
theorem c2_witness :
    c2q.tests = ("sub", c2s.toRunnable) :: c2rest
      ∧ c2q.setupResolves = true
      ∧ ((∀ r : Results, c2s.run.settlement = some (r, false) →
          c2q.run.settlement
            = (runLoop c2q.stopOnFail c2q.teardownResolves c2rest
              r.passed 0 1).settlement)
        ∧ (∀ r : Results, c2s.run.settlement = some (r, true) →
          (c2q.stopOnFail = true →
              c2q.run.settlement
                = finishSettle c2q.teardownResolves r.passed r.failed
              ∧ c2q.run.dispatched = 1)
          ∧ (c2q.stopOnFail = false →
              c2q.run.settlement
                = (runLoop false c2q.teardownResolves c2rest r.passed
                  r.failed 1).settlement))) :=
  ⟨rfl, rfl, c2_nested_queue_folding c2q c2s "sub" c2rest rfl rfl⟩

/-- C3: for every queue with stopOnFail = false holding only leaf entries
(and with setup and teardown resolving so the run settles), every entry is
dispatched, the final results count exactly the passing and failing
leaves, and the run rejects precisely when at least one leaf failed. -/
theorem c3_no_stop_runs_all_entries {V E I : Type} (q : TestQueue V E I)
    (hsof : q.stopOnFail = false) (hsu : q.setupResolves = true)
    (htd : q.teardownResolves = true)
    (hleaf : ∀ x ∈ q.tests, isSettlingLeaf x = true) :
    q.run.settlement
        = some (⟨leafPasses q.tests, leafFails q.tests⟩,
          leafFails q.tests != 0)
      ∧ q.run.dispatched = q.tests.length := by
  rw [TestQueue.run_eq, hsof, hsu, htd]
  rw [runQueue_ok_settlement, runQueue_ok_dispatched,
    runLoop_leaves_go true q.tests hleaf 0 0 0]
  simp [finishSettle]

/-- Concrete queue for the C3 witness: stopOnFail disabled, two passing
and two failing leaves. -/
def c3q : TestQueue Nat Nat Nat :=
  { stopOnFail := false,
    tests := [("a", .leaf [] (.passR 1)), ("b", .leaf [] (.failR 8)),
      ("c", .leaf [] (.passR 2)), ("d", .leaf [] (.failR 9))] }

/-- Witness for C3: on `c3q` all four entries are dispatched and the run
rejects with passed = 2, failed = 2. -/
theorem c3_witness :
    c3q.stopOnFail = false
      ∧ (∀ x ∈ c3q.tests, isSettlingLeaf x = true)
      ∧ (c3q.run.settlement
          = some (⟨leafPasses c3q.tests, leafFails c3q.tests⟩,
            leafFails c3q.tests != 0)
        ∧ c3q.run.dispatched = c3q.tests.length) :=
  ⟨rfl, by decide, c3_no_stop_runs_all_entries c3q rfl rfl rfl (by decide)⟩

/-- C4 as amended: a leaf whose wrapping promise rejects - the test
called `fail(e)` or threw synchronously when invoked, the two routes by
which the Promise executor of index.js line 101 rejects - is treated as a
failure: the `fail` event is emitted with the rejection value as the
error, the failed counter is incremented by exactly one (the engine
continues, or finalizes under stopOnFail, from failed = 1), and every
settlement the run can produce counts it: the results carry a positive
failed count and the run rejects.  The original claim also covered a leaf
that returns a rejected promise-like without calling the callbacks; the
code does not fail that leaf - `new Promise(test.fn.bind(this))` discards
the executor's return value, so the wrapping promise stays pending and
the run hangs with no `fail` event (see the counterexample below). -/
theorem c4_rejected_leaf_is_failure {V E I : Type} (q : TestQueue V E I)
    (n : String) (infos : List I) (e : E) (rest : List (QEntry V E I))
    (hq : q.tests = (n, .leaf infos (.failR e)) :: rest)
    (hsu : q.setupResolves = true) :
    Act.emitE (.failE n e) ∈ q.run.trace
      ∧ (∀ (r : Results) (b : Bool), q.run.settlement = some (r, b) →
          0 < r.failed ∧ b = true)
      ∧ (q.stopOnFail = true →
          q.run.settlement = finishSettle q.teardownResolves 0 1)
      ∧ (q.stopOnFail = false →
          q.run.settlement
            = (runLoop false q.teardownResolves rest 0 1 1).settlement) := by
  have hrunq : q.run
      = runQueue q.stopOnFail true q.teardownResolves
        ((n, .leaf infos (.failR e)) :: rest) := by
    rw [TestQueue.run_eq, hsu, hq]
  refine ⟨?_, ?_, ?_, ?_⟩
  · rw [hrunq, runQueue_ok_trace]
    match hsof : q.stopOnFail with
    | true => rw [runLoop_fail_stop]; simp
    | false => rw [runLoop_fail_go]; simp
  · intro r b hs
    rw [hrunq, runQueue_ok_settlement] at hs
    match hsof : q.stopOnFail with
    | true =>
      rw [hsof] at hs
      rw [runLoop_fail_stop] at hs
      unfold finishSettle at hs
      split at hs
      · cases hs
        exact ⟨by show 0 < 0 + 1; omega, by simp⟩
      · exact absurd hs (by simp)
    | false =>
      rw [hsof] at hs
      rw [runLoop_fail_go] at hs
      obtain ⟨htd, hb, hp, hf⟩ := runLoop_settle_char false
        q.teardownResolves rest 0 1 1 r b hs
      refine ⟨by omega, ?_⟩
      rw [hb]
      simp
      omega
  · intro hsof
    rw [hrunq, hsof, runQueue_ok_settlement, runLoop_fail_stop]
  · intro hsof
    rw [hrunq, hsof, runQueue_ok_settlement, runLoop_fail_go]

/-- Concrete queue for the C4 witness: a failing leaf (error value 5)
followed by a passing leaf. -/
def c4q : TestQueue Nat Nat Nat :=
  { tests := [("boom", .leaf [] (.failR 5)), ("ok", .leaf [] (.passR 1))] }

/-- Tail entries of the C4 witness queue. -/
def c4rest : List (QEntry Nat Nat Nat) := [("ok", .leaf [] (.passR 1))]

/-- Witness for C4 at the concrete queue `c4q`. -/
theorem c4_witness :
    c4q.tests = ("boom", Runnable.leaf [] (.failR 5)) :: c4rest
      ∧ c4q.setupResolves = true
      ∧ (Act.emitE (.failE "boom" 5) ∈ c4q.run.trace
        ∧ (∀ (r : Results) (b : Bool), c4q.run.settlement = some (r, b) →
            0 < r.failed ∧ b = true)
        ∧ (c4q.stopOnFail = true →
            c4q.run.settlement = finishSettle c4q.teardownResolves 0 1)
        ∧ (c4q.stopOnFail = false →
            c4q.run.settlement
              = (runLoop false c4q.teardownResolves c4rest 0 1
                1).settlement)) :=
  ⟨rfl, rfl, c4_rejected_leaf_is_failure c4q "boom" [] 5 c4rest rfl rfl⟩

/-- Concrete queue refuting the original C4: a single leaf that returns a
rejected promise-like without calling the pass/fail callbacks.  Because
`new Promise(executor)` discards the executor's return value, the
wrapping promise never settles: modelled as `hangR`. -/
def c4hangq : TestQueue Nat Nat Nat :=
  { tests := [("boom", .leaf [] .hangR)] }

/-- Counterexample to C4 as stated: on `c4hangq` the whole observable
trace is the setup call and the `start` emission - no `fail` event is
ever emitted, nothing is counted, and the run promise never settles -
contradicting the claim that such a leaf is treated as a failure. -/
theorem c4_counterexample :
    c4hangq.run.trace = [Act.runSetup, Act.emitE (.startE [])]
      ∧ c4hangq.run.settlement = none
      ∧ c4hangq.run.dispatched = 1 := by
  have h : c4hangq.run
      = runQueue true true true [("boom", .leaf [] .hangR)] := rfl
  rw [h, runQueue_setup_ok, runLoop_leaf_hang]
  exact ⟨rfl, rfl, rfl⟩

/-- C5: for every run of every queue - any mix of leaf and nested-queue
entries, either stopOnFail policy - the engine is strictly sequential:
some prefix of k entries is processed, and the run trace is exactly the
setup call, the `start` emission, then the processed entries' event
blocks concatenated in insertion order with nothing interleaved - each
block (`entryTrace`) being the entry's own events, closed by its `pass` /
`fail` event or bubbled sub-run, before the next block begins, so the
next entry is never dispatched before the current one settles - and
after the last block only the finalization actions (or nothing, when the
last processed entry hung the chain).  The cursor ends at exactly k:
entries after the processed prefix are never dispatched, and at most one
entry is ever in flight. -/
theorem c5_entries_processed_in_order {V E I : Type} (q : TestQueue V E I)
    (hsu : q.setupResolves = true) :
    ∃ (k : Nat) (tail : List (Act V E I)),
      k ≤ q.tests.length
      ∧ q.run.trace
          = Act.runSetup :: Act.emitE (.startE [])
            :: (((q.tests.take k).map entryTrace).flatten ++ tail)
      ∧ q.run.dispatched = k
      ∧ (tail = [] ∨ ∃ pr fl, tail = finishActs q.teardownResolves pr fl)
    := by
  obtain ⟨k, tail, hk, htr, hd, htail⟩ := runLoop_blocks q.stopOnFail
    q.teardownResolves q.tests 0 0 0
  refine ⟨k, tail, hk, ?_, ?_, htail⟩
  · rw [TestQueue.run_eq, hsu, runQueue_ok_trace, htr]
  · rw [TestQueue.run_eq, hsu, runQueue_ok_dispatched, hd]
    omega

/-- Concrete queue for the C5 witness: stopOnFail enabled, a nested
sub-queue followed by leaves (one emitting infos). -/
def c5q : TestQueue Nat Nat Nat :=
  { tests := [("sub", .queue true true true [("x", .leaf [] (.passR 1))]),
      ("a", .leaf [10] (.failR 7)), ("c", .leaf [11, 12] (.passR 2))] }

/-- Witness for C5: the run of `c5q` (nested entry, stopOnFail enabled)
factors into per-entry blocks in insertion order. -/
theorem c5_witness :
    c5q.setupResolves = true
      ∧ (∃ (k : Nat) (tail : List (Act Nat Nat Nat)),
        k ≤ c5q.tests.length
        ∧ c5q.run.trace
            = Act.runSetup :: Act.emitE (.startE [])
              :: (((c5q.tests.take k).map entryTrace).flatten ++ tail)
        ∧ c5q.run.dispatched = k
        ∧ (tail = []
          ∨ ∃ pr fl, tail = finishActs c5q.teardownResolves pr fl)) :=
  ⟨rfl, c5_entries_processed_in_order c5q rfl⟩

/-- C6: for every run that can finalize (setup resolves, teardown
resolves, no entry hangs the chain), the trace ends with exactly: the
`finish` emission carrying the aggregated results, then the single
teardown invocation, then the settlement of the run promise, rejected
precisely when the failed count is positive; teardown is invoked nowhere
else in the run. -/
theorem c6_finalization_order {V E I : Type} (q : TestQueue V E I)
    (hsu : q.setupResolves = true) (htd : q.teardownResolves = true)
    (hnh : noHangList q.tests = true) :
    ∃ (evs : List (Act V E I)) (r : Results),
      q.run.trace
          = evs ++ [Act.emitE (.finishE r none), Act.runTeardown,
            Act.settleA (r.failed != 0) r]
        ∧ Act.runTeardown ∉ evs
        ∧ q.run.settlement = some (r, r.failed != 0) := by
  obtain ⟨evs, pr, fl, hall, htr, hset, _, _⟩ := runLoop_finalizes
    q.stopOnFail true q.tests hnh 0 0 0
  refine ⟨Act.runSetup :: Act.emitE (.startE []) :: evs, ⟨pr, fl⟩, ?_, ?_,
    ?_⟩
  · rw [TestQueue.run_eq, hsu, htd, runQueue_ok_trace, htr]
    simp [finishActs]
  · intro hmem
    simp at hmem
    obtain ⟨ev, hev⟩ := hall _ hmem
    cases hev
  · rw [TestQueue.run_eq, hsu, htd, runQueue_ok_settlement, hset]
    simp [finishSettle]

/-- Concrete queue for the C6 witness: a nested all-pass sub-queue and a
failing leaf, stopOnFail disabled. -/
def c6q : TestQueue Nat Nat Nat :=
  { stopOnFail := false,
    tests := [("sub", .queue true true true [("x", .leaf [] (.passR 1))]),
      ("bad", .leaf [] (.failR 3))] }

/-- Witness for C6: the run of `c6q` finalizes in order: finish event,
one teardown, settlement. -/
theorem c6_witness :
    c6q.setupResolves = true
      ∧ noHangList c6q.tests = true
      ∧ (∃ (evs : List (Act Nat Nat Nat)) (r : Results),
        c6q.run.trace
            = evs ++ [Act.emitE (.finishE r none), Act.runTeardown,
              Act.settleA (r.failed != 0) r]
          ∧ Act.runTeardown ∉ evs
          ∧ c6q.run.settlement = some (r, r.failed != 0)) :=
  ⟨rfl, by decide, c6_finalization_order c6q rfl rfl (by decide)⟩

/-- C7: for a nested-queue entry, every event the sub-queue emits during
its run is observed on the parent through the relay: `pass`, `fail` and
`info` with identical arguments; `start` with the entry's name prepended
to its name arguments (so the sub-queue's own start, which carries no
names, surfaces as the parent's start carrying exactly the entry name);
`finish` with the same results and the entry's name attached. -/
theorem c7_event_bubbling {V E I : Type} (q s : TestQueue V E I)
    (n : String) (rest : List (QEntry V E I))
    (hq : q.tests = (n, s.toRunnable) :: rest)
    (hsu : q.setupResolves = true) :
    (∀ (m : String) (v : V), Act.emitE (.passE m v) ∈ s.run.trace →
        Act.emitE (.passE m v) ∈ q.run.trace)
      ∧ (∀ (m : String) (e : E), Act.emitE (.failE m e) ∈ s.run.trace →
        Act.emitE (.failE m e) ∈ q.run.trace)
      ∧ (∀ i : I, Act.emitE (.infoE i) ∈ s.run.trace →
        Act.emitE (.infoE i) ∈ q.run.trace)
      ∧ (∀ names : List String,
        Act.emitE (.startE names) ∈ s.run.trace →
          Act.emitE (.startE (n :: names)) ∈ q.run.trace)
      ∧ (∀ (r : Results) (x : Option String),
        Act.emitE (.finishE r x) ∈ s.run.trace →
          Act.emitE (.finishE r (some n)) ∈ q.run.trace) := by
  have hrunq : q.run
      = runQueue q.stopOnFail true q.teardownResolves
        ((n, Runnable.queue s.stopOnFail s.setupResolves s.teardownResolves
          s.tests) :: rest) := by
    rw [TestQueue.run_eq, hsu, hq, TestQueue.toRunnable]
  obtain ⟨tail, htail⟩ := runLoop_queue_head_trace q.stopOnFail
    q.teardownResolves n s.stopOnFail s.setupResolves s.teardownResolves
    s.tests rest 0 0 0
  have hmem : ∀ a a' : Act V E I, a ∈ s.run.trace → bubble n a = some a' →
      a' ∈ q.run.trace := by
    intro a a' ha hb
    rw [TestQueue.run_eq] at ha
    rw [hrunq, runQueue_ok_trace, htail]
    have hf : a' ∈ (runQueue s.stopOnFail s.setupResolves
        s.teardownResolves s.tests).trace.filterMap (bubble n) :=
      List.mem_filterMap.2 ⟨a, ha, hb⟩
    exact List.mem_cons_of_mem _ (List.mem_cons_of_mem _
      (List.mem_append_left _ hf))
  exact ⟨fun m v ha => hmem _ _ ha rfl, fun m e ha => hmem _ _ ha rfl,
    fun i ha => hmem _ _ ha rfl, fun names ha => hmem _ _ ha rfl,
    fun r x ha => hmem _ _ ha rfl⟩

/-- Concrete sub-queue for the C7 witness. -/
def c7s : TestQueue Nat Nat Nat :=
  { stopOnFail := false,
    tests := [("x", .leaf [42] (.passR 1)), ("y", .leaf [] (.failR 9))] }

/-- Concrete parent queue for the C7 witness. -/
def c7q : TestQueue Nat Nat Nat :=
  { tests := [("inner", c7s.toRunnable)] }

/-- Witness for C7 at the concrete parent `c7q` with nested `c7s`. -/
theorem c7_witness :
    c7q.tests = ("inner", c7s.toRunnable) :: []
      ∧ c7q.setupResolves = true
      ∧ ((∀ (m : String) (v : Nat),
          Act.emitE (.passE m v) ∈ c7s.run.trace →
            Act.emitE (.passE m v) ∈ c7q.run.trace)
        ∧ (∀ (m : String) (e : Nat),
          Act.emitE (.failE m e) ∈ c7s.run.trace →
            Act.emitE (.failE m e) ∈ c7q.run.trace)
        ∧ (∀ i : Nat, Act.emitE (.infoE i) ∈ c7s.run.trace →
            Act.emitE (.infoE i) ∈ c7q.run.trace)
        ∧ (∀ names : List String,
            Act.emitE (.startE names) ∈ c7s.run.trace →
              Act.emitE (.startE ("inner" :: names)) ∈ c7q.run.trace)
        ∧ (∀ (r : Results) (x : Option String),
            Act.emitE (.finishE r x) ∈ c7s.run.trace →
              Act.emitE (.finishE r (some "inner")) ∈ c7q.run.trace)) :=
  ⟨rfl, rfl, c7_event_bubbling c7q c7s "inner" [] rfl rfl⟩

/-- C8: a queue of N passing leaves (setup and teardown resolving)
resolves with passed = N, failed = 0; the empty queue in particular runs
setup, emits `start` and `finish` (with zero counts) exactly once each,
runs teardown, and resolves with zero counts - its full trace is exactly
those five actions. -/
theorem c8_all_pass_resolves {V E I : Type} (q : TestQueue V E I)
    (hsu : q.setupResolves = true) (htd : q.teardownResolves = true)
    (hpass : ∀ x ∈ q.tests, isPassingLeaf x = true) :
    q.run.settlement = some (⟨q.tests.length, 0⟩, false)
      ∧ (q.tests = [] →
        q.run.trace
          = [Act.runSetup, Act.emitE (.startE []),
            Act.emitE (.finishE ⟨0, 0⟩ none), Act.runTeardown,
            Act.settleA false ⟨0, 0⟩]) := by
  constructor
  · rw [TestQueue.run_eq, hsu, htd, runQueue_ok_settlement]
    obtain ⟨_, hset, _⟩ := runLoop_passing_seg q.stopOnFail true q.tests []
      hpass 0 0 0
    rw [show q.tests = q.tests ++ [] from (List.append_nil _).symm, hset,
      runLoop_nil]
    simp [finishSettle]
  · intro h
    rw [TestQueue.run_eq, hsu, htd, h, runQueue_ok_trace, runLoop_nil]
    simp [finishActs]

/-- Concrete queue for the C8 witness: three passing leaves. -/
def c8q : TestQueue Nat Nat Nat :=
  { tests := [("a", .leaf [] (.passR 1)), ("b", .leaf [] (.passR 2)),
      ("c", .leaf [] (.passR 3))] }

/-- Witness for C8: `c8q` resolves with passed = 3, failed = 0. -/
theorem c8_witness :
    (∀ x ∈ c8q.tests, isPassingLeaf x = true)
      ∧ (c8q.run.settlement = some (⟨c8q.tests.length, 0⟩, false)
        ∧ (c8q.tests = [] →
          c8q.run.trace
            = [Act.runSetup, Act.emitE (.startE []),
              Act.emitE (.finishE ⟨0, 0⟩ none), Act.runTeardown,
              Act.settleA false ⟨0, 0⟩])) :=
  ⟨by decide, c8_all_pass_resolves c8q rfl rfl (by decide)⟩

/-- C9: when setup rejects, the rejection falls through both `.then`
handlers of the chain built in `run` and nothing else happens: the run
promise never settles, the `start` event is never emitted, no entry is
ever dispatched, and teardown is never invoked - the whole observable
trace is the setup call alone. -/
theorem c9_setup_rejection_hangs_run {V E I : Type} (q : TestQueue V E I)
    (hsu : q.setupResolves = false) :
    q.run.settlement = none
      ∧ q.run.dispatched = 0
      ∧ (∀ names : List String,
        Act.emitE (.startE names) ∉ q.run.trace)
      ∧ Act.runTeardown ∉ q.run.trace
      ∧ q.run.trace = [Act.runSetup] := by
  have h : q.run = ⟨[Act.runSetup], 0, none⟩ := by
    rw [TestQueue.run_eq, hsu, runQueue_setup_reject]
  rw [h]
  refine ⟨rfl, rfl, ?_, ?_, rfl⟩
  · intro names hmem
    simp at hmem
  · intro hmem
    simp at hmem

/-- Concrete queue for the C9 witness: rejecting setup in front of a
passing leaf. -/
def c9q : TestQueue Nat Nat Nat :=
  { setupResolves := false, tests := [("a", .leaf [] (.passR 1))] }

/-- Witness for C9: the run of `c9q` never settles and observes only the
setup call. -/
theorem c9_witness :
    c9q.setupResolves = false
      ∧ (c9q.run.settlement = none
        ∧ c9q.run.dispatched = 0
        ∧ (∀ names : List String,
          Act.emitE (.startE names) ∉ c9q.run.trace)
        ∧ Act.runTeardown ∉ c9q.run.trace
        ∧ c9q.run.trace = [Act.runSetup]) :=
  ⟨rfl, c9_setup_rejection_hangs_run c9q rfl⟩

/-- C10: when teardown throws or rejects, the settlement handler chained
after `Promise.resolve(teardownFn())` in `_onFinish` never runs, so the
run promise never settles - even though the `finish` event with the
aggregated results was already emitted before teardown was invoked (the
trace ends with the finish emission followed by the teardown
invocation). -/
theorem c10_teardown_rejection_hangs_run {V E I : Type}
    (q : TestQueue V E I) (hsu : q.setupResolves = true)
    (htd : q.teardownResolves = false)
    (hnh : noHangList q.tests = true) :
    q.run.settlement = none
      ∧ ∃ (evs : List (Act V E I)) (r : Results),
        q.run.trace
            = evs ++ [Act.emitE (.finishE r none), Act.runTeardown]
          ∧ Act.runTeardown ∉ evs := by
  obtain ⟨evs, pr, fl, hall, htr, hset, _, _⟩ := runLoop_finalizes
    q.stopOnFail false q.tests hnh 0 0 0
  constructor
  · rw [TestQueue.run_eq, hsu, htd, runQueue_ok_settlement, hset]
    simp [finishSettle]
  · refine ⟨Act.runSetup :: Act.emitE (.startE []) :: evs, ⟨pr, fl⟩, ?_,
      ?_⟩
    · rw [TestQueue.run_eq, hsu, htd, runQueue_ok_trace, htr]
      simp [finishActs]
    · intro hmem
      simp at hmem
      obtain ⟨ev, hev⟩ := hall _ hmem
      cases hev

/-- Concrete queue for the C10 witness: rejecting teardown behind one
passing leaf. -/
def c10q : TestQueue Nat Nat Nat :=
  { teardownResolves := false, tests := [("a", .leaf [] (.passR 1))] }

/-- Witness for C10: the run of `c10q` never settles although its trace
ends with the finish emission and the teardown invocation. -/
theorem c10_witness :
    c10q.setupResolves = true
      ∧ c10q.teardownResolves = false
      ∧ noHangList c10q.tests = true
      ∧ (c10q.run.settlement = none
        ∧ ∃ (evs : List (Act Nat Nat Nat)) (r : Results),
          c10q.run.trace
              = evs ++ [Act.emitE (.finishE r none), Act.runTeardown]
            ∧ Act.runTeardown ∉ evs) :=
  ⟨rfl, rfl, by decide, c10_teardown_rejection_hangs_run c10q rfl rfl
    (by decide)⟩
